import Mathlib

/-!
Verification development for the Akedoshop household-inventory and
autonomous-shopping assistant (src/api/gemini.js).

The source file contains a server-side proxy `handler`, a retrying fetch
wrapper `fetchWithRetry`, two model-call wrappers (`callVisionAPI`,
`callPredictiveEngine`), and a client application whose state-changing
operations are `runForecasting` (forecast merge and cart build),
`processUpdates`, `handleCheckout`, `updateInventory` and `updateConfig`.

Modelling conventions:
* JavaScript numbers are modelled as rationals (`ℚ`).  `parseFloat(x) || d`
  on a numeric input is the identity except that a falsy result (`0` or
  `NaN`) yields `d`; `NaN` is modelled by `0`, so the fallback is written
  `if x = 0 then d else x`.
* Absent/undefined string fields are modelled as `Option String` (or as the
  empty string where the code only ever tests truthiness).
* `parseFloat(x.toFixed(2))` is modelled as exact rounding of a rational to
  the nearest hundredth (ties rounded up), `round2`.
* A Firestore collection is a `List` of documents; a batched `set` replaces
  the document with a matching id, or appends a new document
  (`applyBatchWrites`).  Document ids in one collection are unique, which
  appears as a `Nodup` hypothesis on `map (·.id)`.
* The random price draw `Math.random() * 5 + 5` and the generated UUIDs are
  nondeterministic inputs and are passed in as parameters.
-/

namespace Akedoshop

/-- ASCII lower-casing of one character, as `toLowerCase()` acts on the
item names appearing here (same mapping as `Char.toLower`). -/
def lowerChar (c : Char) : Char :=
  if 65 ≤ c.toNat ∧ c.toNat ≤ 90 then Char.ofNat (c.toNat + 32) else c

/-- Case-insensitive key used by the code's `name.toLowerCase()` lookups. -/
def lowerName (s : String) : String := String.mk (s.data.map lowerChar)

/-- An inventory document (collection `inventory`). -/
structure InventoryItem where
  id : String
  name : String
  quantity : ℚ
  unit : String
  restockLevel : ℚ
  dailyUse : ℚ
  lastUsed : String
  predictedRunOutDate : Option String
deriving DecidableEq

/-- A purchase-history document (collection `purchaseHistory`). -/
structure HistoryEntry where
  item : String
  quantity : ℚ
  vendor : String
  cost : ℚ
  date : String
  method : String
deriving DecidableEq

/-- The singleton user configuration document (`config/userConfig`). -/
structure UserConfig where
  spendCapMonthly : ℚ
  currentMonthSpend : ℚ
  vendorAllowlist : List String
deriving DecidableEq

/-- One entry of the model's `suggestedCart` output.  The response schema
only requires `name`, `quantityToBuy` and `reason`; `vendor` is optional. -/
structure Suggestion where
  name : String
  quantityToBuy : ℚ
  reason : String
  vendor : Option String
deriving DecidableEq

/-- One line of the transient suggested cart built by `runForecasting`. -/
structure CartItem where
  name : String
  quantity : ℚ
  cost : ℚ
  vendor : String
  reason : String
deriving DecidableEq

/-- One entry of the model's `inventoryForecasts` output. -/
structure Forecast where
  name : String
  predictedRunOutDate : String
deriving DecidableEq

/-- The client-side agent state synchronized with the document store. -/
structure AgentState where
  inventory : List InventoryItem
  history : List HistoryEntry
  config : UserConfig
  cart : List CartItem
deriving DecidableEq

/-- `parseFloat(x.toFixed(2))`: rounding to the nearest hundredth. -/
def round2 (q : ℚ) : ℚ := ((⌊q * 100 + 1 / 2⌋ : ℤ) : ℚ) / 100

/-- `userConfig.vendorAllowlist[0] || 'Unknown'`: the first allowlist entry,
with JavaScript falsiness sending a missing or empty first entry to
`'Unknown'`. -/
def firstAllowedVendor (allow : List String) : String :=
  match allow.head? with
  | some v => if v = "" then "Unknown" else v
  | none => "Unknown"

/-- The vendor policy applied per suggested item in `runForecasting`:
`item.vendor && userConfig.vendorAllowlist.includes(item.vendor)
 ? item.vendor : userConfig.vendorAllowlist[0] || 'Unknown'`. -/
def resolveVendor (allow : List String) (v : Option String) : String :=
  match v with
  | some s => if s ≠ "" ∧ s ∈ allow then s else firstAllowedVendor allow
  | none => firstAllowedVendor allow

/-- The cart line pushed for an admitted suggestion (`newCart.push({...})`);
`rawCost` is the simulated price `item.quantityToBuy * (Math.random()*5+5)`. -/
def mkCartItem (cfg : UserConfig) (s : Suggestion) (rawCost : ℚ) : CartItem :=
  { name := s.name
    quantity := s.quantityToBuy
    cost := round2 rawCost
    vendor := resolveVendor cfg.vendorAllowlist s.vendor
    reason := s.reason }

/-- Step 3 of `runForecasting`: the greedy cart build.  Each suggestion is
paired with its simulated raw price; an item is admitted exactly when
`currentMonthSpend + totalCost + itemCost <= spendCapMonthly`, in which case
the running total is increased by the raw price.  Returns the cart and the
final running total. -/
def buildCart (cfg : UserConfig) : List (Suggestion × ℚ) → ℚ → List CartItem × ℚ
  | [], total => ([], total)
  | (s, c) :: rest, total =>
    if cfg.currentMonthSpend + total + c ≤ cfg.spendCapMonthly then
      let p := buildCart cfg rest (total + c)
      (mkCartItem cfg s c :: p.1, p.2)
    else
      buildCart cfg rest total

/-- Observer on `buildCart`'s recursion: the pairs
(running total at admission, raw item cost) of the admitted items, in
admission order. -/
def admissions (cfg : UserConfig) : List (Suggestion × ℚ) → ℚ → List (ℚ × ℚ)
  | [], _ => []
  | (_, c) :: rest, total =>
    if cfg.currentMonthSpend + total + c ≤ cfg.spendCapMonthly then
      (total, c) :: admissions cfg rest (total + c)
    else
      admissions cfg rest total

/-- Sequential application of the writes of a Firestore `writeBatch`: each
`set` replaces the document whose id matches, or creates (appends) a new
document. -/
def applyBatchWrites : List InventoryItem → List (String × InventoryItem) → List InventoryItem
  | inv, [] => inv
  | inv, w :: ws =>
    applyBatchWrites
      (if inv.any (fun i => i.id == w.1) then
        inv.map (fun i => if i.id = w.1 then w.2 else i)
      else
        inv ++ [w.2]) ws

/-- The `inventoryMap` lookup of `runForecasting`:
`new Map(safeInventory.map(item => [item.name.toLowerCase(), item]))` maps a
lowercased name to the LAST inventory item bearing it. -/
def lookupInventory (inv : List InventoryItem) (key : String) : Option InventoryItem :=
  (inv.filter (fun i => lowerName i.name == key)).getLast?

/-- `safeInventory`: `inventory.filter(item => item && item.name)` keeps the
items with a truthy (non-empty) name. -/
def safeInventory (inv : List InventoryItem) : List InventoryItem :=
  inv.filter (fun i => i.name != "")

/-- Step 2 of `runForecasting`: for each returned forecast whose lowercased
name hits the inventory map, a merge-`set` writing only
`predictedRunOutDate` is queued against that item's document id. -/
def forecastWrites (inv : List InventoryItem) (fcs : List Forecast) : List (String × String) :=
  fcs.filterMap fun f =>
    (lookupInventory (safeInventory inv) (lowerName f.name)).map fun i =>
      (i.id, f.predictedRunOutDate)

/-- Application of the queued forecast merge-`set`s: only the
`predictedRunOutDate` field of the targeted document changes.  (Every queued
id comes from an existing inventory document, so the create-on-missing case
of a merge `set` cannot arise.) -/
def applyForecastWrites : List InventoryItem → List (String × String) → List InventoryItem
  | inv, [] => inv
  | inv, w :: ws =>
    applyForecastWrites
      (inv.map fun i =>
        if i.id = w.1 then { i with predictedRunOutDate := some w.2 } else i) ws

/-- The whole forecast-merge step of `runForecasting`. -/
def mergeForecasts (inv : List InventoryItem) (fcs : List Forecast) : List InventoryItem :=
  applyForecastWrites inv (forecastWrites inv fcs)

/-- The model's reply to `callPredictiveEngine`. -/
structure PredictResult where
  suggestedCart : List Suggestion
  inventoryForecasts : List Forecast
deriving DecidableEq

/-- The state change effected by one run of `runForecasting`, given the
prediction reply and the list of simulated raw prices (one per suggestion).
With an empty inventory the function returns early and changes nothing. -/
def runForecasting (st : AgentState) (pred : PredictResult) (costs : List ℚ) : AgentState :=
  if st.inventory = [] then st
  else
    { st with
      inventory := mergeForecasts st.inventory pred.inventoryForecasts
      cart := (buildCart st.config (pred.suggestedCart.zip costs) 0).1 }

/-- `updateConfig`: `setDoc(configDocRef, newConfig, { merge: true })` with a
full config object replaces every config field. -/
def updateConfig (st : AgentState) (newConfig : UserConfig) : AgentState :=
  { st with config := newConfig }

/-- An incoming update (receipt extraction or manual entry):
`{name, quantity, cost, vendor, method}`. -/
structure UpdateEntry where
  name : String
  quantity : ℚ
  cost : ℚ
  vendor : String
  method : String
deriving DecidableEq

/-- `const quantity = parseFloat(u.quantity) || 1`: a falsy parse result
(0 or NaN, modelled by 0) is replaced by 1. -/
def parsedQuantity (u : UpdateEntry) : ℚ :=
  if u.quantity = 0 then 1 else u.quantity

/-- The history record `processUpdates` queues for one update
(`method: u.method || 'Agent Input'`; the cost is
`parseFloat(u.cost) || 0`, the identity on our rational model). -/
def updateHistoryRecord (now : String) (u : UpdateEntry) : HistoryEntry :=
  { item := u.name
    quantity := parsedQuantity u
    vendor := u.vendor
    cost := u.cost
    date := now
    method := if u.method = "" then "Agent Input" else u.method }

/-- The inventory write `processUpdates` queues for one update: the first
case-insensitive name match gets its quantity increased and its forecast
cleared; otherwise a new document with derived defaults is created under the
fresh id `freshId` (modelling `crypto.randomUUID()`). -/
def updateWrite (inv : List InventoryItem) (now : String) (freshId : String)
    (u : UpdateEntry) : String × InventoryItem :=
  match inv.find? (fun i => lowerName i.name == lowerName u.name) with
  | some e =>
    (e.id,
      { e with
        quantity := e.quantity + parsedQuantity u
        lastUsed := now
        predictedRunOutDate := none })
  | none =>
    (freshId,
      { id := freshId
        name := u.name
        quantity := parsedQuantity u
        unit := if parsedQuantity u > 1 then "units" else "unit"
        restockLevel := parsedQuantity u * 2
        dailyUse := parsedQuantity u / 30
        lastUsed := now
        predictedRunOutDate := none })

/-- The inventory writes of the whole batch, every lookup running against
the same pre-batch inventory; the update at position `k` (counting from the
given offset) uses the fresh id `ids k`. -/
def updateWrites (inv : List InventoryItem) (now : String) (ids : Nat → String) :
    Nat → List UpdateEntry → List (String × InventoryItem)
  | _, [] => []
  | k, u :: us => updateWrite inv now (ids k) u :: updateWrites inv now ids (k + 1) us

/-- `processUpdates`: on a non-empty batch, append one history record per
update and commit the inventory writes atomically.  (It then triggers a
forecast re-run, not part of this state change.) -/
def processUpdates (st : AgentState) (now : String) (ids : Nat → String)
    (us : List UpdateEntry) : AgentState :=
  if us = [] then st
  else
    { st with
      history := st.history ++ us.map (updateHistoryRecord now)
      inventory := applyBatchWrites st.inventory (updateWrites st.inventory now ids 0 us) }

/-- The history record `handleCheckout` queues for one cart line. -/
def checkoutRecord (now : String) (c : CartItem) : HistoryEntry :=
  { item := c.name
    quantity := c.quantity
    vendor := c.vendor
    cost := c.cost
    date := now
    method := "Agent Auto" }

/-- The inventory write `handleCheckout` queues for one cart line: if the
line's name matches an existing item (first case-insensitive match against
the pre-checkout inventory), set that document to the matched item with its
quantity increased by the line quantity and its forecast cleared; a line
without a match queues no write. -/
def checkoutWrite (inv : List InventoryItem) (now : String) (c : CartItem) :
    Option (String × InventoryItem) :=
  (inv.find? (fun i => lowerName i.name == lowerName c.name)).map fun e =>
    (e.id,
      { e with
        quantity := e.quantity + c.quantity
        lastUsed := now
        predictedRunOutDate := none })

/-- All inventory writes of `handleCheckout`, in cart order. -/
def checkoutWrites (inv : List InventoryItem) (now : String) (cart : List CartItem) :
    List (String × InventoryItem) :=
  cart.filterMap (checkoutWrite inv now)

/-- The result of `handleCheckout`: the new state, and whether the routine
committed a purchase (after which it re-runs the forecast). -/
structure CheckoutResult where
  state : AgentState
  forecastRerun : Bool
deriving DecidableEq

/-- `handleCheckout`: with a non-empty suggested cart it executes
unconditionally (fully autonomous, no confirmation): one history record and
one inventory write per cart line, `currentMonthSpend` increased by the sum
of the line costs, cart cleared, forecast re-run. -/
def handleCheckout (st : AgentState) (now : String) : CheckoutResult :=
  if st.cart = [] then ⟨st, false⟩
  else
    ⟨{ st with
        history := st.history ++ st.cart.map (checkoutRecord now)
        inventory := applyBatchWrites st.inventory (checkoutWrites st.inventory now st.cart)
        config :=
          { st.config with
            currentMonthSpend :=
              st.config.currentMonthSpend + (st.cart.map (fun c => c.cost)).sum }
        cart := [] }, true⟩

/-- The raw argument of `updateInventory` (edit form and the plus and minus
quantity buttons); an absent `id`, `unit` or `lastUsed` is modelled by the
empty string. -/
structure RawItemInput where
  id : String
  name : String
  quantity : ℚ
  unit : String
  restockLevel : ℚ
  dailyUse : ℚ
  lastUsed : String
  predictedRunOutDate : Option String
deriving DecidableEq

/-- `updateInventory`: the sanitized document the routine writes with
`setDoc` — every falsy field replaced by its default, and
`predictedRunOutDate` unconditionally set to null. -/
def updateInventory (genId : String) (now : String) (item : RawItemInput) : InventoryItem :=
  { id := if item.id = "" then genId else item.id
    name := item.name
    quantity := item.quantity
    unit := if item.unit = "" then "units" else item.unit
    restockLevel := if item.restockLevel = 0 then 1 else item.restockLevel
    dailyUse := if item.dailyUse = 0 then 1 / 20 else item.dailyUse
    lastUsed := if item.lastUsed = "" then now else item.lastUsed
    predictedRunOutDate := none }

/-- The outcome of one `fetch` attempt: a response with a status code, or a
rejected promise (network error). -/
inductive FetchOutcome where
  | resp (status : Nat)
  | netErr
deriving DecidableEq

/-- `response.ok`: status in the 2xx range. -/
def respOk (s : Nat) : Prop := 200 ≤ s ∧ s ≤ 299

instance (s : Nat) : Decidable (respOk s) := by unfold respOk; infer_instance

/-- The statuses `fetchWithRetry` turns into thrown (hence retried) errors:
`response.status === 429 || response.status >= 500`. -/
def retryableStatus (s : Nat) : Prop := s = 429 ∨ 500 ≤ s

instance (s : Nat) : Decidable (retryableStatus s) := by unfold retryableStatus; infer_instance

/-- What propagates out of `fetchWithRetry` when the final attempt fails. -/
inductive FetchError where
  | httpStatus (status : Nat)
  | network
deriving DecidableEq

/-- `fetchWithRetry` over the list of attempt outcomes (one per loop
iteration, so a list of length `maxRetries = 5` at both call sites).
Returns the propagated result together with the number of attempts made.
A non-ok, non-retryable response is returned as-is; a retryable status or a
network error is retried unless it happened on the last attempt, in which
case it propagates.  (`maxRetries = 0`, the empty list, would make the JS
loop fall through; it is unreachable at the call sites.) -/
def fetchWithRetry : List FetchOutcome → Except FetchError Nat × Nat
  | [] => (Except.error FetchError.network, 0)
  | o :: rest =>
    match o with
    | FetchOutcome.resp s =>
      if ¬ respOk s ∧ retryableStatus s then
        match rest with
        | [] => (Except.error (FetchError.httpStatus s), 1)
        | r :: rs =>
          let p := fetchWithRetry (r :: rs)
          (p.1, p.2 + 1)
      else (Except.ok s, 1)
    | FetchOutcome.netErr =>
      match rest with
      | [] => (Except.error FetchError.network, 1)
      | r :: rs =>
        let p := fetchWithRetry (r :: rs)
        (p.1, p.2 + 1)

/-- The empty default `callPredictiveEngine` degrades to. -/
def emptyPredictResult : PredictResult := ⟨[], []⟩

/-- `callPredictiveEngine`: any failure propagated by `fetchWithRetry` is
caught and degraded to the logged empty result; a response without a
parsable `jsonText` body (modelled by `body = none`) also yields the empty
result. -/
def callPredictiveEngine (outcomes : List FetchOutcome) (body : Option PredictResult) :
    PredictResult :=
  match (fetchWithRetry outcomes).1 with
  | Except.error _ => emptyPredictResult
  | Except.ok _ =>
    match body with
    | some r => r
    | none => emptyPredictResult

/-- `callVisionAPI`: same degradation shape, yielding an empty extraction
list. -/
def callVisionAPI (outcomes : List FetchOutcome) (body : Option (List UpdateEntry)) :
    List UpdateEntry :=
  match (fetchWithRetry outcomes).1 with
  | Except.error _ => []
  | Except.ok _ =>
    match body with
    | some r => r
    | none => []

/-- What the proxy's outbound `fetch` to the provider would do. -/
inductive ProviderResult where
  | responds (status : Nat) (body : String)
  | networkError
deriving DecidableEq

/-- The response the proxy `handler` sends, plus whether the outbound call
to the provider was made. -/
structure HandlerOutcome where
  status : Nat
  body : String
  outboundCalled : Bool
deriving DecidableEq

/-- `!GEMINI_API_KEY`: the credential counts as configured when it is
present and non-empty (truthy). -/
def keyConfigured (key : Option String) : Bool :=
  match key with
  | some k => k != ""
  | none => false

/-- The proxy endpoint `handler`: 405 for non-POST, 500 when no credential
is configured (before any outbound call), otherwise it relays the provider's
status and body verbatim, or 500 on outbound network failure. -/
def handler (method : String) (key : Option String) (provider : ProviderResult) :
    HandlerOutcome :=
  if method ≠ "POST" then ⟨405, "Method Not Allowed", false⟩
  else if ¬ keyConfigured key then ⟨500, "Server error: Key missing.", false⟩
  else
    match provider with
    | ProviderResult.responds s b => ⟨s, b, true⟩
    | ProviderResult.networkError => ⟨500, "Internal Server Error.", true⟩

/-! ### Concrete states and data used by the theorems below -/

/-- Configuration used by concrete instances (the §8 example config). -/
def cfgW1 : UserConfig := ⟨500, 150, ["Amazon", "Walmart"]⟩

/-- Suggestion used by concrete instances (the §8 example suggestion). -/
def sW1 : Suggestion := ⟨"Milk", 2, "Low stock", some "Walmart"⟩

/-- A seed inventory row (the §8 example item). -/
def invMilk : List InventoryItem := [⟨"3", "Milk", 1, "gallon", 2, 1 / 5, "t0", none⟩]

/-- Prediction reply used in the commit-time counterexample. -/
def predC2 : PredictResult := ⟨[⟨"Milk", 2, "Low stock", some "Amazon"⟩], []⟩

/-- State after a forecast run under cap 500/spend 150 with one suggested
item of raw cost 100: the cart holds that item. -/
def stBuiltC2 : AgentState :=
  runForecasting ⟨invMilk, [], ⟨500, 150, ["Amazon"]⟩, []⟩ predC2 [100]

/-- Same state after the user lowers the monthly cap to 200 in settings. -/
def stRecappedC2 : AgentState := updateConfig stBuiltC2 ⟨200, 150, ["Amazon"]⟩

/-- The single cart line built in the counterexample run. -/
def cartLineC2 : CartItem := ⟨"Milk", 2, 100, "Amazon", "Low stock"⟩

/-- Frame relation of the forecast merge: every field except
`predictedRunOutDate` is unchanged, and the item is either fully unchanged
or its forecast was set to the date of a returned forecast whose name
matches case-insensitively. -/
def frameRel (fcs : List Forecast) (i i' : InventoryItem) : Prop :=
  i'.id = i.id ∧ i'.name = i.name ∧ i'.quantity = i.quantity ∧ i'.unit = i.unit ∧
  i'.restockLevel = i.restockLevel ∧ i'.dailyUse = i.dailyUse ∧ i'.lastUsed = i.lastUsed ∧
  (i' = i ∨ ∃ f ∈ fcs, lowerName f.name = lowerName i.name ∧
      i'.predictedRunOutDate = some f.predictedRunOutDate)

/-- State used by the concrete checkout instance. -/
def stW3 : AgentState := ⟨invMilk, [], cfgW1, [⟨"Milk", 2, 10, "Walmart", "Low stock"⟩]⟩

/-- Inventory used in the concrete merge instance. -/
def invW6 : List InventoryItem := [⟨"1", "Coffee Beans", 1 / 2, "bags", 1, 1 / 10, "t0", none⟩]

/-- The §8 example item as it stands after the concrete restock instance. -/
def milkItem : InventoryItem := ⟨"3", "Milk", 1, "gallon", 2, 1 / 5, "t0", none⟩

/-- Fresh-id supply used by the concrete new-item instance: distinct
repetition counts give distinct strings. -/
def freshIdsW5 (k : Nat) : String := String.mk (List.replicate (k + 1) 'x')

/-! ### Helper lemmas -/

lemma admissions_within_cap (cfg : UserConfig) :
    ∀ (items : List (Suggestion × ℚ)) (t : ℚ), ∀ p ∈ admissions cfg items t,
      cfg.currentMonthSpend + p.1 + p.2 ≤ cfg.spendCapMonthly := by
  intro items
  induction items with
  | nil => intro t p hp; simp [admissions] at hp
  | cons a rest ih =>
    intro t p hp
    obtain ⟨s, c⟩ := a
    by_cases h : cfg.currentMonthSpend + t + c ≤ cfg.spendCapMonthly
    · rw [admissions, if_pos h] at hp
      rcases List.mem_cons.mp hp with hp | hp
      · subst hp; exact h
      · exact ih (t + c) p hp
    · rw [admissions, if_neg h] at hp
      exact ih t p hp

lemma buildCart_length_eq_admissions (cfg : UserConfig) :
    ∀ (items : List (Suggestion × ℚ)) (t : ℚ),
      (buildCart cfg items t).1.length = (admissions cfg items t).length := by
  intro items
  induction items with
  | nil => intro t; rfl
  | cons a rest ih =>
    intro t
    obtain ⟨s, c⟩ := a
    by_cases h : cfg.currentMonthSpend + t + c ≤ cfg.spendCapMonthly
    · rw [buildCart, admissions, if_pos h, if_pos h]
      simpa using ih (t + c)
    · rw [buildCart, admissions, if_neg h, if_neg h]
      exact ih t

lemma buildCart_sublist (cfg : UserConfig) :
    ∀ (pairs : List (Suggestion × ℚ)) (t : ℚ), ∃ sub : List (Suggestion × ℚ),
      sub.Sublist pairs ∧
        (buildCart cfg pairs t).1 = sub.map (fun p => mkCartItem cfg p.1 p.2) := by
  intro pairs
  induction pairs with
  | nil => intro t; exact ⟨[], List.Sublist.refl _, rfl⟩
  | cons a rest ih =>
    intro t
    obtain ⟨s, c⟩ := a
    by_cases h : cfg.currentMonthSpend + t + c ≤ cfg.spendCapMonthly
    · obtain ⟨sub, hs, he⟩ := ih (t + c)
      refine ⟨(s, c) :: sub, List.Sublist.cons₂ _ hs, ?_⟩
      rw [buildCart, if_pos h]
      simp [he]
    · obtain ⟨sub, hs, he⟩ := ih t
      refine ⟨sub, List.Sublist.cons _ hs, ?_⟩
      rw [buildCart, if_neg h]
      exact he

lemma buildCart_total_of_empty (cfg : UserConfig) :
    ∀ (items : List (Suggestion × ℚ)) (t : ℚ),
      (buildCart cfg items t).1 = [] → (buildCart cfg items t).2 = t := by
  intro items
  induction items with
  | nil => intro t _; rfl
  | cons a rest ih =>
    intro t h
    obtain ⟨s, c⟩ := a
    by_cases hc : cfg.currentMonthSpend + t + c ≤ cfg.spendCapMonthly
    · rw [buildCart, if_pos hc] at h
      simp at h
    · rw [buildCart, if_neg hc] at h ⊢
      exact ih t h

lemma buildCart_total_le (cfg : UserConfig) :
    ∀ (items : List (Suggestion × ℚ)) (t : ℚ),
      (buildCart cfg items t).1 ≠ [] →
        cfg.currentMonthSpend + (buildCart cfg items t).2 ≤ cfg.spendCapMonthly := by
  intro items
  induction items with
  | nil => intro t h; simp [buildCart] at h
  | cons a rest ih =>
    intro t h
    obtain ⟨s, c⟩ := a
    by_cases hc : cfg.currentMonthSpend + t + c ≤ cfg.spendCapMonthly
    · rw [buildCart, if_pos hc]
      by_cases hrest : (buildCart cfg rest (t + c)).1 = []
      · rw [buildCart_total_of_empty cfg rest (t + c) hrest, ← add_assoc]
        exact hc
      · exact ih (t + c) hrest
    · rw [buildCart, if_neg hc] at h ⊢
      exact ih t h

lemma round2_le (q : ℚ) : round2 q ≤ q + 1 / 200 := by
  unfold round2
  have h := Int.floor_le (q * 100 + 1 / 2)
  rw [div_le_iff₀ (by norm_num : (0 : ℚ) < 100)]
  linarith

lemma buildCart_cost_sum_le (cfg : UserConfig) :
    ∀ (items : List (Suggestion × ℚ)) (t : ℚ),
      ((buildCart cfg items t).1.map (fun c => c.cost)).sum ≤
        (buildCart cfg items t).2 - t + ((buildCart cfg items t).1.length : ℚ) * (1 / 200) := by
  intro items
  induction items with
  | nil => intro t; simp [buildCart]
  | cons a rest ih =>
    intro t
    obtain ⟨s, c⟩ := a
    by_cases hc : cfg.currentMonthSpend + t + c ≤ cfg.spendCapMonthly
    · rw [buildCart, if_pos hc]
      have hr := ih (t + c)
      have hrd := round2_le c
      simp only [List.map_cons, List.sum_cons, List.length_cons]
      have : (mkCartItem cfg s c).cost = round2 c := rfl
      rw [this]
      push_cast
      linarith
    · rw [buildCart, if_neg hc]
      exact ih t

/-! ### Claims C1, C2, C7, C8, C9, C10 -/

/-- Claim C1 (confirmed): the cart-building step admits an item only when
`currentMonthSpend` plus the running total of already-admitted raw costs
plus the item's raw cost stays within `spendCapMonthly`; `admissions`
records (running total, item cost) for every admitted item, one per cart
line. -/
theorem buildCart_admission_within_cap (cfg : UserConfig) (items : List (Suggestion × ℚ)) :
    (buildCart cfg items 0).1.length = (admissions cfg items 0).length ∧
    ∀ p ∈ admissions cfg items 0,
      cfg.currentMonthSpend + p.1 + p.2 ≤ cfg.spendCapMonthly :=
  ⟨buildCart_length_eq_admissions cfg items 0, admissions_within_cap cfg items 0⟩

lemma admissions_W1 : admissions cfgW1 [(sW1, 30)] 0 = [(0, 30)] := by
  rw [admissions, if_pos (by norm_num [cfgW1])]
  rfl

/-- Concrete instance of the cart-admission invariant. -/
theorem buildCart_admission_within_cap_witness :
    cfgW1.currentMonthSpend + ((0 : ℚ), (30 : ℚ)).1 + ((0 : ℚ), (30 : ℚ)).2 ≤
      cfgW1.spendCapMonthly :=
  (buildCart_admission_within_cap cfgW1 [(sW1, 30)]).2 (0, 30)
    (by rw [admissions_W1]; exact List.mem_singleton.mpr rfl)

lemma round2_hundred : round2 100 = 100 := by
  unfold round2
  have h : ⌊(100 : ℚ) * 100 + 1 / 2⌋ = 10000 := by
    norm_num [Int.floor_eq_iff]
  rw [h]
  norm_num

lemma stBuiltC2_cart : stBuiltC2.cart = [cartLineC2] := by
  have h : stBuiltC2.cart =
      (buildCart ⟨500, 150, ["Amazon"]⟩
        [(⟨"Milk", 2, "Low stock", some "Amazon"⟩, 100)] 0).1 := rfl
  rw [h, buildCart, if_pos (by norm_num)]
  simp [mkCartItem, resolveVendor, cartLineC2, round2_hundred, buildCart]

/-- Claim C2 counterexample: a cart built under cap 500 with one line of
cost 100 and spend 150 is committed after the user lowers the cap to 200;
at commit time `currentMonthSpend` plus the cart cost (250) exceeds
`spendCapMonthly` (200), yet `handleCheckout` commits unconditionally and
ends with spend 250 over the cap. -/
theorem checkout_commit_over_cap_cex :
    stRecappedC2.config.spendCapMonthly <
        stRecappedC2.config.currentMonthSpend +
          (stRecappedC2.cart.map (fun c => c.cost)).sum ∧
    (handleCheckout stRecappedC2 "t1").forecastRerun = true ∧
    (handleCheckout stRecappedC2 "t1").state.config.spendCapMonthly <
        (handleCheckout stRecappedC2 "t1").state.config.currentMonthSpend := by
  have hcart : stRecappedC2.cart = [cartLineC2] := stBuiltC2_cart
  have hcfg : stRecappedC2.config = ⟨200, 150, ["Amazon"]⟩ := rfl
  have hne : stRecappedC2.cart ≠ [] := by rw [hcart]; simp
  refine ⟨?_, ?_, ?_⟩
  · rw [hcfg, hcart]
    norm_num [cartLineC2]
  · simp [handleCheckout, hne]
  · have hc : (handleCheckout stRecappedC2 "t1").state.config =
        { stRecappedC2.config with
          currentMonthSpend :=
            stRecappedC2.config.currentMonthSpend +
              (stRecappedC2.cart.map (fun c => c.cost)).sum } := by
      simp [handleCheckout, hne]
    rw [hc, hcfg, hcart]
    norm_num [cartLineC2]

/-- Claim C2 (amended): checkout re-checks nothing, so the commit-time
invariant holds only relative to the configuration the cart was built
under: if the cart was built from the still-current config then the raw
admitted total keeps `currentMonthSpend` within `spendCapMonthly`, and the
committed `currentMonthSpend` (which sums the cent-rounded line costs) is
within `spendCapMonthly` plus a half-cent allowance per cart line. -/
theorem checkout_commit_cap_relative_to_build (st : AgentState)
    (items : List (Suggestion × ℚ)) (now : String)
    (hcart : st.cart = (buildCart st.config items 0).1)
    (hne : st.cart ≠ []) :
    st.config.currentMonthSpend + (buildCart st.config items 0).2 ≤
        st.config.spendCapMonthly ∧
    (handleCheckout st now).state.config.currentMonthSpend ≤
        st.config.spendCapMonthly + (st.cart.length : ℚ) * (1 / 200) := by
  have hne' : (buildCart st.config items 0).1 ≠ [] := by rw [← hcart]; exact hne
  have h1 := buildCart_total_le st.config items 0 hne'
  have h2 := buildCart_cost_sum_le st.config items 0
  refine ⟨h1, ?_⟩
  have hspend : (handleCheckout st now).state.config.currentMonthSpend =
      st.config.currentMonthSpend + (st.cart.map (fun c => c.cost)).sum := by
    simp [handleCheckout, hne]
  rw [hspend, hcart]
  rw [hcart] at *
  linarith

/-- Concrete instance of the amended commit-time bound. -/
theorem checkout_commit_cap_relative_to_build_witness :
    (handleCheckout stBuiltC2 "t1").state.config.currentMonthSpend ≤
        stBuiltC2.config.spendCapMonthly + (stBuiltC2.cart.length : ℚ) * (1 / 200) :=
  (checkout_commit_cap_relative_to_build stBuiltC2 (predC2.suggestedCart.zip [100]) "t1"
    rfl (by rw [stBuiltC2_cart]; simp)).2

/-- Claim C7 counterexample: an empty-string vendor that is a member of the
allowlist is not kept (JavaScript truthiness short-circuits the membership
test); the built cart line carries the first allowlist vendor instead. -/
theorem buildCart_vendor_empty_string_cex :
    ("" ∈ (["Amazon", ""] : List String)) ∧
    (buildCart ⟨500, 0, ["Amazon", ""]⟩
        [(⟨"Milk", 1, "Low stock", some ""⟩, 10)] 0).1.map (fun c => c.vendor) =
      ["Amazon"] ∧
    "Amazon" ≠ "" := by
  refine ⟨by simp, ?_, by simp⟩
  rw [buildCart, if_pos (by norm_num)]
  simp [mkCartItem, resolveVendor, firstAllowedVendor, buildCart]

/-- Claim C7 (amended): a suggested item keeps its vendor exactly when the
vendor is present, non-empty and in the allowlist; otherwise the first
allowlist vendor is used, with `'Unknown'` when the allowlist is empty (or
its first entry is the empty string); the cart is an order-preserving
selection of the suggestions — items are considered one at a time in the
order the model returned them, with no reordering. -/
theorem buildCart_vendor_order_spec (cfg : UserConfig) (pairs : List (Suggestion × ℚ))
    (t : ℚ) :
    (∃ sub : List (Suggestion × ℚ), sub.Sublist pairs ∧
      (buildCart cfg pairs t).1 = sub.map (fun p => mkCartItem cfg p.1 p.2)) ∧
    (∀ v : String, v ≠ "" → v ∈ cfg.vendorAllowlist →
      resolveVendor cfg.vendorAllowlist (some v) = v) ∧
    (∀ v : String, v = "" ∨ v ∉ cfg.vendorAllowlist →
      resolveVendor cfg.vendorAllowlist (some v) = firstAllowedVendor cfg.vendorAllowlist) ∧
    resolveVendor cfg.vendorAllowlist none = firstAllowedVendor cfg.vendorAllowlist ∧
    (cfg.vendorAllowlist = [] → firstAllowedVendor cfg.vendorAllowlist = "Unknown") ∧
    (∀ s : Suggestion, ∀ c : ℚ,
      (mkCartItem cfg s c).vendor = resolveVendor cfg.vendorAllowlist s.vendor) := by
  refine ⟨buildCart_sublist cfg pairs t, ?_, ?_, rfl, ?_, fun _ _ => rfl⟩
  · intro v hne hmem
    simp [resolveVendor, hne, hmem]
  · intro v hv
    rcases hv with hv | hv
    · subst hv; simp [resolveVendor]
    · simp [resolveVendor, hv]
  · intro h
    simp [firstAllowedVendor, h]

/-- Concrete instance of the amended vendor rule. -/
theorem buildCart_vendor_order_spec_witness :
    resolveVendor ["Amazon", "Walmart"] (some "Walmart") = "Walmart" :=
  (buildCart_vendor_order_spec ⟨500, 150, ["Amazon", "Walmart"]⟩ [] 0).2.1 "Walmart"
    (by simp) (by simp)

/-- Claim C8 counterexample: a network error (a failure that is not a
429/5xx response) on the first attempt is retried rather than propagated
immediately — the wrapper succeeds on the second attempt. -/
theorem fetchWithRetry_network_error_retry_cex :
    fetchWithRetry [FetchOutcome.netErr, FetchOutcome.resp 200, FetchOutcome.resp 200,
        FetchOutcome.resp 200, FetchOutcome.resp 200] = (Except.ok 200, 2) ∧
    (2 : Nat) ≠ 1 :=
  ⟨rfl, by decide⟩

lemma fetchWithRetry_resp_last (s : Nat) :
    fetchWithRetry [FetchOutcome.resp s] =
      if ¬ respOk s ∧ retryableStatus s then (Except.error (FetchError.httpStatus s), 1)
      else (Except.ok s, 1) := rfl

lemma fetchWithRetry_resp_cons (s : Nat) (r : FetchOutcome) (rs : List FetchOutcome) :
    fetchWithRetry (FetchOutcome.resp s :: r :: rs) =
      if ¬ respOk s ∧ retryableStatus s then
        ((fetchWithRetry (r :: rs)).1, (fetchWithRetry (r :: rs)).2 + 1)
      else (Except.ok s, 1) := rfl

lemma fetchWithRetry_net_last :
    fetchWithRetry [FetchOutcome.netErr] = (Except.error FetchError.network, 1) := rfl

lemma fetchWithRetry_net_cons (r : FetchOutcome) (rs : List FetchOutcome) :
    fetchWithRetry (FetchOutcome.netErr :: r :: rs) =
      ((fetchWithRetry (r :: rs)).1, (fetchWithRetry (r :: rs)).2 + 1) := rfl

lemma fetchWithRetry_attempts_le :
    ∀ outcomes : List FetchOutcome, (fetchWithRetry outcomes).2 ≤ outcomes.length := by
  intro outcomes
  induction outcomes with
  | nil => exact Nat.le_refl 0
  | cons o rest ih =>
    cases o with
    | resp s =>
      cases rest with
      | nil =>
        rw [fetchWithRetry_resp_last]
        split <;> simp
      | cons r rs =>
        rw [fetchWithRetry_resp_cons]
        split
        · simpa [List.length_cons] using Nat.succ_le_succ ih
        · simp
    | netErr =>
      cases rest with
      | nil => rw [fetchWithRetry_net_last]; simp
      | cons r rs =>
        rw [fetchWithRetry_net_cons]
        simpa [List.length_cons] using Nat.succ_le_succ ih

lemma fetchWithRetry_attempts_pos :
    ∀ outcomes : List FetchOutcome, outcomes ≠ [] → 1 ≤ (fetchWithRetry outcomes).2 := by
  intro outcomes h
  cases outcomes with
  | nil => exact absurd rfl h
  | cons o rest =>
    cases o with
    | resp s =>
      cases rest with
      | nil =>
        rw [fetchWithRetry_resp_last]
        split <;> simp
      | cons r rs =>
        rw [fetchWithRetry_resp_cons]
        split <;> simp
    | netErr =>
      cases rest with
      | nil => rw [fetchWithRetry_net_last]
      | cons r rs => rw [fetchWithRetry_net_cons]; simp

/-- Claim C8 (amended): the wrapper makes at most as many attempts as it is
given (5 at both call sites); when more attempts remain it retries exactly
when the attempt was a network error or a non-ok 429/5xx response; any
other response — ok or not, e.g. a 404 — is returned on the first try; a
retryable failure on the last attempt propagates; and both callers degrade
every propagated failure into the logged empty result (empty suggested
cart and forecasts, empty extraction list). -/
theorem fetchWithRetry_spec (outcomes : List FetchOutcome) :
    (fetchWithRetry outcomes).2 ≤ outcomes.length ∧
    (∀ o rest, outcomes = o :: rest → rest ≠ [] →
      (2 ≤ (fetchWithRetry outcomes).2 ↔
        (o = FetchOutcome.netErr ∨
          ∃ s, o = FetchOutcome.resp s ∧ ¬ respOk s ∧ retryableStatus s))) ∧
    (∀ s rest, ¬ (¬ respOk s ∧ retryableStatus s) →
      fetchWithRetry (FetchOutcome.resp s :: rest) = (Except.ok s, 1)) ∧
    (∀ s, ¬ respOk s → retryableStatus s →
      fetchWithRetry [FetchOutcome.resp s] = (Except.error (FetchError.httpStatus s), 1)) ∧
    fetchWithRetry [FetchOutcome.netErr] = (Except.error FetchError.network, 1) ∧
    (∀ e body, (fetchWithRetry outcomes).1 = Except.error e →
      callPredictiveEngine outcomes body = emptyPredictResult) ∧
    (∀ e body, (fetchWithRetry outcomes).1 = Except.error e →
      callVisionAPI outcomes body = []) := by
  refine ⟨fetchWithRetry_attempts_le outcomes, ?_, ?_, ?_, fetchWithRetry_net_last, ?_, ?_⟩
  · rintro o rest rfl hrest
    obtain ⟨r, rs, rfl⟩ : ∃ r rs, rest = r :: rs := by
      cases rest with
      | nil => exact absurd rfl hrest
      | cons r rs => exact ⟨r, rs, rfl⟩
    cases o with
    | resp s =>
      rw [fetchWithRetry_resp_cons]
      by_cases hs : ¬ respOk s ∧ retryableStatus s
      · rw [if_pos hs]
        have hp := fetchWithRetry_attempts_pos (r :: rs) (by simp)
        constructor
        · intro _; exact Or.inr ⟨s, rfl, hs⟩
        · intro _
          show 2 ≤ (fetchWithRetry (r :: rs)).2 + 1
          omega
      · rw [if_neg hs]
        constructor
        · intro h
          exact absurd h (by simp)
        · rintro (h | ⟨s', hs', h1, h2⟩)
          · exact FetchOutcome.noConfusion h
          · cases hs'
            exact absurd ⟨h1, h2⟩ hs
    | netErr =>
      rw [fetchWithRetry_net_cons]
      have hp := fetchWithRetry_attempts_pos (r :: rs) (by simp)
      constructor
      · intro _; exact Or.inl rfl
      · intro _
        show 2 ≤ (fetchWithRetry (r :: rs)).2 + 1
        omega
  · intro s rest hs
    cases rest with
    | nil => rw [fetchWithRetry_resp_last, if_neg hs]
    | cons r rs => rw [fetchWithRetry_resp_cons, if_neg hs]
  · intro s h1 h2
    rw [fetchWithRetry_resp_last, if_pos ⟨h1, h2⟩]
  · intro e body herr
    unfold callPredictiveEngine
    rw [herr]
  · intro e body herr
    unfold callVisionAPI
    rw [herr]

/-- Concrete instance of the amended retry behavior: a 404 response is
returned immediately on the first attempt. -/
theorem fetchWithRetry_spec_witness :
    fetchWithRetry [FetchOutcome.resp 404, FetchOutcome.netErr] = (Except.ok 404, 1) :=
  (fetchWithRetry_spec [FetchOutcome.resp 404, FetchOutcome.netErr]).2.2.1 404
    [FetchOutcome.netErr] (by decide)

/-- Claim C9 (confirmed): a POST arriving while no provider credential is
configured is answered with status 500 and an error message, and no
outbound call to the provider is made. -/
theorem handler_no_key_500 (key : Option String) (provider : ProviderResult)
    (hkey : keyConfigured key = false) :
    handler "POST" key provider = ⟨500, "Server error: Key missing.", false⟩ := by
  simp [handler, hkey]

/-- Concrete instance: unset credential, provider would respond 200. -/
theorem handler_no_key_500_witness :
    keyConfigured none = false ∧
    handler "POST" none (ProviderResult.responds 200 "ok") =
      ⟨500, "Server error: Key missing.", false⟩ :=
  ⟨rfl, handler_no_key_500 none (ProviderResult.responds 200 "ok") rfl⟩

/-- Claim C10 (confirmed): every `updateInventory` call writes the item with
`predictedRunOutDate` null, whatever forecast value the input carried. -/
theorem updateInventory_clears_forecast (genId now : String) (item : RawItemInput) :
    (updateInventory genId now item).predictedRunOutDate = none := rfl

/-! ### Claim C6: the forecast merge frame -/

lemma forecastWrites_sound (inv : List InventoryItem) (fcs : List Forecast) :
    ∀ w ∈ forecastWrites inv fcs, ∃ f ∈ fcs, ∃ j ∈ inv,
      j.id = w.1 ∧ lowerName j.name = lowerName f.name ∧ w.2 = f.predictedRunOutDate := by
  intro w hw
  unfold forecastWrites at hw
  rw [List.mem_filterMap] at hw
  obtain ⟨f, hf, hmap⟩ := hw
  cases hlook : lookupInventory (safeInventory inv) (lowerName f.name) with
  | none => rw [hlook] at hmap; exact absurd hmap (by simp)
  | some j =>
    rw [hlook] at hmap
    simp only [Option.map_some'] at hmap
    injection hmap with hmap'
    subst hmap'
    have hj : j ∈ (safeInventory inv).filter (fun i => lowerName i.name == lowerName f.name) := by
      unfold lookupInventory at hlook
      obtain ⟨h, rfl⟩ := List.mem_getLast?_eq_getLast (Option.mem_def.mpr hlook)
      exact List.getLast_mem h
    rw [List.mem_filter] at hj
    obtain ⟨hj1, hj2⟩ := hj
    have hjinv : j ∈ inv := List.mem_of_mem_filter hj1
    exact ⟨f, hf, j, hjinv, rfl, by simpa using hj2, rfl⟩

lemma applyForecastWrites_frame (inv : List InventoryItem) (fcs : List Forecast)
    (hinj : ∀ i ∈ inv, ∀ j ∈ inv, i.id = j.id → i = j) :
    ∀ ws : List (String × String),
      (∀ w ∈ ws, ∃ f ∈ fcs, ∃ j ∈ inv,
        j.id = w.1 ∧ lowerName j.name = lowerName f.name ∧ w.2 = f.predictedRunOutDate) →
      ∀ acc, List.Forall₂ (fun i i' => frameRel fcs i i' ∧ i ∈ inv) inv acc →
        List.Forall₂ (fun i i' => frameRel fcs i i' ∧ i ∈ inv) inv
          (applyForecastWrites acc ws) := by
  intro ws
  induction ws with
  | nil => intro _ acc hacc; exact hacc
  | cons w ws ih =>
    intro hW acc hacc
    rw [applyForecastWrites]
    apply ih (fun w' hw' => hW w' (List.mem_cons_of_mem w hw'))
    rw [List.forall₂_map_right_iff]
    refine hacc.imp ?_
    rintro a b ⟨hfr, hmem⟩
    by_cases hid : b.id = w.1
    · rw [if_pos hid]
      obtain ⟨f, hf, j, hjmem, hjid, hjname, hw2⟩ := hW w (List.mem_cons_self w ws)
      have haj : a = j := by
        apply hinj a hmem j hjmem
        rw [hjid, ← hid]
        exact hfr.1.symm
      refine ⟨⟨hfr.1, hfr.2.1, hfr.2.2.1, hfr.2.2.2.1, hfr.2.2.2.2.1,
        hfr.2.2.2.2.2.1, hfr.2.2.2.2.2.2.1, Or.inr ⟨f, hf, ?_, ?_⟩⟩, hmem⟩
      · rw [haj]; exact hjname.symm
      · simp [hw2]
    · rw [if_neg hid]
      exact ⟨hfr, hmem⟩

/-- Claim C6 (confirmed, with the Firestore invariant that document ids in
the inventory collection are unique): the forecast merge relates old and new
inventory pointwise — every field other than `predictedRunOutDate` is
unchanged, an item changes at all only when its lowercased name equals that
of some returned forecast (taking that forecast's date), and dropping a
returned forecast whose name matches no inventory item leaves the merge
result unchanged (the non-match is a silent no-op). -/
theorem mergeForecasts_frame (inv : List InventoryItem) (fcs : List Forecast)
    (hids : (inv.map (fun i => i.id)).Nodup) :
    List.Forall₂ (frameRel fcs) inv (mergeForecasts inv fcs) ∧
    ∀ fcs1 fcs2 f, (∀ i ∈ inv, lowerName i.name ≠ lowerName f.name) →
      mergeForecasts inv (fcs1 ++ f :: fcs2) = mergeForecasts inv (fcs1 ++ fcs2) := by
  constructor
  · have hinj : ∀ i ∈ inv, ∀ j ∈ inv, i.id = j.id → i = j := fun i hi j hj h =>
      List.inj_on_of_nodup_map hids hi hj h
    have h0 : List.Forall₂ (fun i i' => frameRel fcs i i' ∧ i ∈ inv) inv inv := by
      rw [List.forall₂_same]
      intro x hx
      exact ⟨⟨rfl, rfl, rfl, rfl, rfl, rfl, rfl, Or.inl rfl⟩, hx⟩
    have h := applyForecastWrites_frame inv fcs hinj (forecastWrites inv fcs)
      (forecastWrites_sound inv fcs) inv h0
    exact h.imp (fun a b hab => hab.1)
  · intro fcs1 fcs2 f hnm
    unfold mergeForecasts
    have hnone : lookupInventory (safeInventory inv) (lowerName f.name) = none := by
      unfold lookupInventory
      have hfil : (safeInventory inv).filter
          (fun i => lowerName i.name == lowerName f.name) = [] := by
        rw [List.filter_eq_nil_iff]
        intro i hi
        have hiinv : i ∈ inv := List.mem_of_mem_filter hi
        simpa using hnm i hiinv
      rw [hfil]
      rfl
    have hw : forecastWrites inv (fcs1 ++ f :: fcs2) = forecastWrites inv (fcs1 ++ fcs2) := by
      unfold forecastWrites
      rw [List.filterMap_append, List.filterMap_append]
      congr 1
      rw [List.filterMap_cons]
      simp [hnone]
    rw [hw]

/-! ### Batched write membership lemmas (shared by C3, C4, C5) -/

lemma applyBatchWrites_mem_of_ne (v : InventoryItem) :
    ∀ (ws : List (String × InventoryItem)) (inv : List InventoryItem),
      v ∈ inv → (∀ w ∈ ws, w.1 ≠ v.id) → v ∈ applyBatchWrites inv ws := by
  intro ws
  induction ws with
  | nil => intro inv hv _; exact hv
  | cons w ws ih =>
    intro inv hv hne
    rw [applyBatchWrites]
    apply ih
    · by_cases hany : inv.any (fun i => i.id == w.1)
      · rw [if_pos hany]
        refine List.mem_map.mpr ⟨v, hv, ?_⟩
        rw [if_neg]
        intro h
        exact hne w (List.mem_cons_self w ws) (h ▸ rfl)
      · rw [if_neg hany]
        exact List.mem_append_left _ hv
    · exact fun w' hw' => hne w' (List.mem_cons_of_mem w hw')

lemma applyBatchWrites_mem_insert (w : String × InventoryItem) (hid : w.2.id = w.1) :
    ∀ (ws₁ ws₂ : List (String × InventoryItem)) (inv : List InventoryItem),
      (∀ w' ∈ ws₂, w'.1 ≠ w.1) →
      w.2 ∈ applyBatchWrites inv (ws₁ ++ w :: ws₂) := by
  intro ws₁
  induction ws₁ with
  | nil =>
    intro ws₂ inv hne
    rw [List.nil_append, applyBatchWrites]
    apply applyBatchWrites_mem_of_ne
    · by_cases hany : inv.any (fun i => i.id == w.1)
      · rw [if_pos hany]
        obtain ⟨x, hx, hxid⟩ := List.any_eq_true.mp hany
        refine List.mem_map.mpr ⟨x, hx, ?_⟩
        rw [if_pos (by simpa using hxid)]
      · rw [if_neg hany]
        exact List.mem_append_right _ (List.mem_singleton.mpr rfl)
    · intro w' hw'
      rw [hid]
      exact hne w' hw'
  | cons a ws₁ ih =>
    intro ws₂ inv hne
    rw [List.cons_append, applyBatchWrites]
    exact ih ws₂ _ hne

/-! ### Claim C3: the checkout routine -/

lemma checkoutWrite_eq_some (inv : List InventoryItem) (now : String) (c : CartItem)
    (e : InventoryItem)
    (he : inv.find? (fun i => lowerName i.name == lowerName c.name) = some e) :
    checkoutWrite inv now c =
      some (e.id,
        { e with
          quantity := e.quantity + c.quantity
          lastUsed := now
          predictedRunOutDate := none }) := by
  unfold checkoutWrite
  rw [he]
  rfl

/-- Claim C3 counterexample: with two cart lines for Milk (x2 then x3) and
Milk at quantity 1, both inventory writes are computed against the
pre-checkout snapshot and the later one wins: Milk ends at quantity 4
(1 + 3), not at 1 + 2 + 3 = 6 as per-line increments would give. -/
theorem handleCheckout_duplicate_lines_cex :
    (handleCheckout
        ⟨invMilk, [], cfgW1,
          [⟨"Milk", 2, 10, "Walmart", "Low stock"⟩,
           ⟨"Milk", 3, 10, "Walmart", "Low stock"⟩]⟩ "t1").state.inventory.map
        (fun i => i.quantity) = [4] ∧
    (4 : ℚ) ≠ 1 + 2 + 3 := by
  have hbeq : (lowerName "Milk" == lowerName "Milk") = true := beq_self_eq_true _
  constructor
  · simp [handleCheckout, checkoutWrites, checkoutWrite, applyBatchWrites, invMilk,
      List.find?, hbeq]
    norm_num
  · norm_num

/-- Claim C3 (amended): with a non-empty cart, checkout executes
unconditionally (no confirmation): it re-runs the forecast, clears the
cart, appends one history record per cart line, adds the total of all line
costs to `currentMonthSpend`, and for every cart line whose name matches an
existing inventory item writes that item back with its quantity increased
by the line quantity (computed against the pre-checkout inventory snapshot,
so taken per item this reading needs cart line names that are distinct
case-insensitively — with duplicate lines only the last one's write
survives).  In the §8 example (Milk quantity 1, one cart line Milk x2),
Milk's quantity becomes 3 and `currentMonthSpend` becomes 150 plus the line
cost. -/
theorem handleCheckout_spec (st : AgentState) (now : String)
    (hne : st.cart ≠ [])
    (hids : (st.inventory.map (fun i => i.id)).Nodup)
    (hnames : (st.cart.map (fun c => lowerName c.name)).Nodup) :
    (handleCheckout st now).forecastRerun = true ∧
    (handleCheckout st now).state.cart = [] ∧
    (handleCheckout st now).state.history =
        st.history ++ st.cart.map (checkoutRecord now) ∧
    (handleCheckout st now).state.config.currentMonthSpend =
        st.config.currentMonthSpend + (st.cart.map (fun c => c.cost)).sum ∧
    (∀ c ∈ st.cart, ∀ e,
      st.inventory.find? (fun i => lowerName i.name == lowerName c.name) = some e →
      ({ e with
          quantity := e.quantity + c.quantity
          lastUsed := now
          predictedRunOutDate := none } : InventoryItem) ∈
        (handleCheckout st now).state.inventory) ∧
    (∀ cost : ℚ,
      (handleCheckout ⟨invMilk, [], cfgW1, [⟨"Milk", 2, cost, "Walmart", "Low stock"⟩]⟩
          now).state.inventory.map (fun i => i.quantity) = [3] ∧
      (handleCheckout ⟨invMilk, [], cfgW1, [⟨"Milk", 2, cost, "Walmart", "Low stock"⟩]⟩
          now).state.config.currentMonthSpend = 150 + cost) := by
  have hinj : ∀ i ∈ st.inventory, ∀ j ∈ st.inventory, i.id = j.id → i = j :=
    fun i hi j hj h => List.inj_on_of_nodup_map hids hi hj h
  refine ⟨by simp [handleCheckout, hne], by simp [handleCheckout, hne],
    by simp [handleCheckout, hne], by simp [handleCheckout, hne], ?_, ?_⟩
  · intro c hc e he
    obtain ⟨l₁, l₂, hcart⟩ := List.append_of_mem hc
    have hinv : (handleCheckout st now).state.inventory =
        applyBatchWrites st.inventory (checkoutWrites st.inventory now st.cart) := by
      simp [handleCheckout, hne]
    rw [hinv, hcart]
    unfold checkoutWrites
    rw [List.filterMap_append, List.filterMap_cons, checkoutWrite_eq_some _ _ _ _ he]
    simp only [Option.toList_some]
    apply applyBatchWrites_mem_insert
      (e.id,
        { e with
          quantity := e.quantity + c.quantity
          lastUsed := now
          predictedRunOutDate := none }) rfl
    intro w' hw'
    rw [List.mem_filterMap] at hw'
    obtain ⟨c', hc', hgc'⟩ := hw'
    cases hfind : st.inventory.find? (fun i => lowerName i.name == lowerName c'.name) with
    | none =>
      unfold checkoutWrite at hgc'
      rw [hfind] at hgc'
      exact absurd hgc' (by simp)
    | some e' =>
      rw [checkoutWrite_eq_some _ _ _ _ hfind] at hgc'
      injection hgc' with hgc'
      subst hgc'
      show e'.id ≠ e.id
      have hc'name : lowerName e'.name = lowerName c'.name := by
        have h := List.find?_some hfind
        simpa using h
      have hcname : lowerName e.name = lowerName c.name := by
        have h := List.find?_some he
        simpa using h
      have hnotmem : lowerName c.name ∉ l₂.map (fun x => lowerName x.name) := by
        rw [hcart, List.map_append, List.map_cons] at hnames
        exact (List.nodup_cons.mp (hnames.of_append_right)).1
      intro hideq
      have hee : e' = e :=
        hinj e' (List.mem_of_find?_eq_some hfind) e (List.mem_of_find?_eq_some he) hideq
      apply hnotmem
      have : lowerName c'.name = lowerName c.name := by
        rw [← hc'name, hee, hcname]
      rw [← this]
      exact List.mem_map_of_mem _ hc'
  · intro cost
    have hbeq : (lowerName "Milk" == lowerName "Milk") = true := beq_self_eq_true _
    constructor
    · simp [handleCheckout, checkoutWrites, checkoutWrite, applyBatchWrites, invMilk,
        List.find?, hbeq]
      norm_num
    · simp [handleCheckout, invMilk, cfgW1]

/-- Concrete instance of the checkout specification. -/
theorem handleCheckout_spec_witness :
    (handleCheckout stW3 "t1").forecastRerun = true :=
  (handleCheckout_spec stW3 "t1" (by simp [stW3]) (by simp [stW3, invMilk])
    (by simp [stW3])).1

/-- Concrete instance of the merge no-op: a forecast for an absent name
leaves the merge unchanged. -/
theorem mergeForecasts_frame_witness :
    mergeForecasts invW6 ([] ++ (⟨"Toilet Paper", "2026-02-01"⟩ : Forecast) :: []) =
      mergeForecasts invW6 ([] ++ []) :=
  (mergeForecasts_frame invW6 [] (by simp [invW6])).2 [] [] ⟨"Toilet Paper", "2026-02-01"⟩
    (by
      intro i hi
      simp only [invW6, List.mem_singleton] at hi
      subst hi
      decide)

/-! ### Claims C4 and C5: the apply-updates routine -/

lemma updateWrites_append (inv : List InventoryItem) (now : String) (ids : Nat → String) :
    ∀ (us₁ : List UpdateEntry) (u : UpdateEntry) (us₂ : List UpdateEntry) (k : Nat),
      updateWrites inv now ids k (us₁ ++ u :: us₂) =
        updateWrites inv now ids k us₁ ++
          updateWrite inv now (ids (k + us₁.length)) u ::
            updateWrites inv now ids (k + us₁.length + 1) us₂ := by
  intro us₁
  induction us₁ with
  | nil =>
    intro u us₂ k
    rw [List.nil_append, updateWrites, updateWrites]
    simp
  | cons a us₁ ih =>
    intro u us₂ k
    rw [List.cons_append, updateWrites, ih, updateWrites]
    have h1 : k + 1 + us₁.length = k + (a :: us₁).length := by
      simp [List.length_cons]
      omega
    rw [h1]
    rfl

lemma updateWrites_cases (inv : List InventoryItem) (now : String) (ids : Nat → String) :
    ∀ (us : List UpdateEntry) (k₀ : Nat), ∀ w ∈ updateWrites inv now ids k₀ us,
      (∃ u' ∈ us, ∃ e' ∈ inv,
          inv.find? (fun i => lowerName i.name == lowerName u'.name) = some e' ∧
          w.1 = e'.id) ∨
      (∃ k', k₀ ≤ k' ∧ w.1 = ids k') := by
  intro us
  induction us with
  | nil => intro k₀ w hw; rw [updateWrites] at hw; exact absurd hw (by simp)
  | cons u us ih =>
    intro k₀ w hw
    rw [updateWrites] at hw
    rcases List.mem_cons.mp hw with hw | hw
    · subst hw
      cases hfind : inv.find? (fun i => lowerName i.name == lowerName u.name) with
      | some e' =>
        left
        refine ⟨u, List.mem_cons_self u us, e', List.mem_of_find?_eq_some hfind, hfind, ?_⟩
        unfold updateWrite
        rw [hfind]
      | none =>
        right
        refine ⟨k₀, Nat.le_refl k₀, ?_⟩
        unfold updateWrite
        rw [hfind]
    · rcases ih (k₀ + 1) w hw with ⟨u', hu', rest⟩ | ⟨k', hk', hw'⟩
      · exact Or.inl ⟨u', List.mem_cons_of_mem u hu', rest⟩
      · exact Or.inr ⟨k', by omega, hw'⟩

lemma updateWrite_existing (inv : List InventoryItem) (now : String) (freshId : String)
    (u : UpdateEntry) (e : InventoryItem)
    (he : inv.find? (fun i => lowerName i.name == lowerName u.name) = some e) :
    updateWrite inv now freshId u =
      (e.id,
        { e with
          quantity := e.quantity + parsedQuantity u
          lastUsed := now
          predictedRunOutDate := none }) := by
  unfold updateWrite
  rw [he]

lemma updateWrite_new (inv : List InventoryItem) (now : String) (freshId : String)
    (u : UpdateEntry)
    (he : inv.find? (fun i => lowerName i.name == lowerName u.name) = none) :
    updateWrite inv now freshId u =
      (freshId,
        { id := freshId
          name := u.name
          quantity := parsedQuantity u
          unit := if parsedQuantity u > 1 then "units" else "unit"
          restockLevel := parsedQuantity u * 2
          dailyUse := parsedQuantity u / 30
          lastUsed := now
          predictedRunOutDate := none }) := by
  unfold updateWrite
  rw [he]

/-- Claim C4 counterexample: an update for the existing item Milk with
purchased quantity 0 increases Milk's quantity from 1 to 2 (the falsy parse
default `parseFloat(u.quantity) || 1` substitutes 1), not by the purchased
quantity 0. -/
theorem processUpdates_zero_quantity_cex :
    (processUpdates ⟨invMilk, [], cfgW1, []⟩ "t1" (fun _ => "fresh")
        [⟨"Milk", 0, 5, "Walmart", "Manual Input"⟩]).inventory.map
        (fun i => i.quantity) = [2] ∧
    (1 : ℚ) + 0 ≠ 2 := by
  have hbeq : (lowerName "Milk" == lowerName "Milk") = true := beq_self_eq_true _
  constructor
  · simp [processUpdates, updateWrites, updateWrite, parsedQuantity, applyBatchWrites,
      invMilk, List.find?, hbeq]
    norm_num
  · norm_num

/-- Claim C4 (amended): `processUpdates` appends one history record per
update entry, and for every entry whose name matches an existing inventory
item (first case-insensitive match) and whose lowercased name is unique in
the batch, the matched item ends with its quantity increased by the parsed
purchased quantity — equal to the entry's quantity whenever that is
non-zero (a zero or unparsable quantity is parsed as 1) — its forecast
cleared and `lastUsed` refreshed.  (Fresh ids are assumed distinct from
existing document ids, as `crypto.randomUUID()` provides.) -/
theorem processUpdates_existing_item_spec (st : AgentState) (now : String)
    (ids : Nat → String) (us : List UpdateEntry)
    (hids : (st.inventory.map (fun i => i.id)).Nodup)
    (hnames : (us.map (fun u => lowerName u.name)).Nodup)
    (hfresh : ∀ k, ∀ i ∈ st.inventory, ids k ≠ i.id) :
    (processUpdates st now ids us).history =
        st.history ++ us.map (updateHistoryRecord now) ∧
    ∀ u ∈ us, u.quantity ≠ 0 → ∀ e,
      st.inventory.find? (fun i => lowerName i.name == lowerName u.name) = some e →
      ({ e with
          quantity := e.quantity + u.quantity
          lastUsed := now
          predictedRunOutDate := none } : InventoryItem) ∈
        (processUpdates st now ids us).inventory := by
  have hinj : ∀ i ∈ st.inventory, ∀ j ∈ st.inventory, i.id = j.id → i = j :=
    fun i hi j hj h => List.inj_on_of_nodup_map hids hi hj h
  constructor
  · by_cases hus : us = []
    · subst hus; simp [processUpdates]
    · simp [processUpdates, hus]
  · intro u hu hq e he
    have hus : us ≠ [] := by rintro rfl; exact absurd hu (by simp)
    have hinv : (processUpdates st now ids us).inventory =
        applyBatchWrites st.inventory (updateWrites st.inventory now ids 0 us) := by
      simp [processUpdates, hus]
    obtain ⟨l₁, l₂, hsplit⟩ := List.append_of_mem hu
    have hpq : parsedQuantity u = u.quantity := by simp [parsedQuantity, hq]
    rw [hinv, hsplit, updateWrites_append,
      updateWrite_existing _ _ _ _ _ he, hpq]
    apply applyBatchWrites_mem_insert
      (e.id,
        { e with
          quantity := e.quantity + u.quantity
          lastUsed := now
          predictedRunOutDate := none }) rfl
    intro w' hw'
    rcases updateWrites_cases st.inventory now ids l₂ (0 + l₁.length + 1) w' hw' with
      ⟨u', hu', e', he'mem, hfind, hw1⟩ | ⟨k', _, hw1⟩
    · rw [hw1]
      have hc'name : lowerName e'.name = lowerName u'.name := by
        have h := List.find?_some hfind
        simpa using h
      have hcname : lowerName e.name = lowerName u.name := by
        have h := List.find?_some he
        simpa using h
      have hnotmem : lowerName u.name ∉ l₂.map (fun x => lowerName x.name) := by
        rw [hsplit, List.map_append, List.map_cons] at hnames
        exact (List.nodup_cons.mp (hnames.of_append_right)).1
      intro hideq
      have hee : e' = e :=
        hinj e' he'mem e (List.mem_of_find?_eq_some he) hideq
      apply hnotmem
      have heq : lowerName u'.name = lowerName u.name := by
        rw [← hc'name, hee, hcname]
      rw [← heq]
      exact List.mem_map_of_mem _ hu'
    · rw [hw1]
      exact hfresh k' e (List.mem_of_find?_eq_some he)

/-- Concrete instance of the restock specification: restocking Milk by 2
leaves quantity 3 and no forecast. -/
theorem processUpdates_existing_item_spec_witness :
    ({ milkItem with
        quantity := milkItem.quantity + (2 : ℚ)
        lastUsed := "t1"
        predictedRunOutDate := none } : InventoryItem) ∈
      (processUpdates ⟨invMilk, [], cfgW1, []⟩ "t1" (fun _ => "fresh")
        [⟨"Milk", 2, 5, "Walmart", "Manual Input"⟩]).inventory :=
  (processUpdates_existing_item_spec ⟨invMilk, [], cfgW1, []⟩ "t1" (fun _ => "fresh")
      [⟨"Milk", 2, 5, "Walmart", "Manual Input"⟩]
      (by simp [invMilk]) (by simp) (by intro k i hi; simp [invMilk] at hi; simp [hi])).2
    ⟨"Milk", 2, 5, "Walmart", "Manual Input"⟩ (by simp) (by norm_num) milkItem
    (by
      have hbeq : (lowerName "Milk" == lowerName "Milk") = true := beq_self_eq_true _
      simp [invMilk, List.find?, hbeq, milkItem])

/-- Claim C5 counterexample: a new-item update with purchased quantity 0
creates an item with `restockLevel` 2 (twice the falsy-parse default 1),
not twice the purchased quantity 0. -/
theorem processUpdates_new_zero_quantity_cex :
    (processUpdates ⟨[], [], cfgW1, []⟩ "t1" (fun _ => "n0")
        [⟨"Eggs", 0, 3, "Walmart", "Manual Input"⟩]).inventory.map
        (fun i => i.restockLevel) = [2] ∧
    (2 : ℚ) * 0 ≠ 2 := by
  constructor
  · simp [processUpdates, updateWrites, updateWrite, parsedQuantity, applyBatchWrites,
      List.find?]
  · norm_num

/-- Claim C5 (amended): for every update entry (at position `k` of the
batch) whose name has no case-insensitive match in the inventory, a new
inventory document is created whose `restockLevel` is twice the parsed
purchased quantity and whose `dailyUse` is the parsed quantity divided by
30, with `predictedRunOutDate` null — where the parsed quantity equals the
entry's quantity whenever that is non-zero (a zero or unparsable quantity
is parsed as 1).  (Fresh ids are assumed injective and distinct from
existing document ids, as `crypto.randomUUID()` provides.) -/
theorem processUpdates_new_item_spec (st : AgentState) (now : String)
    (ids : Nat → String) (us : List UpdateEntry)
    (hinj : ∀ k l : Nat, k ≠ l → ids k ≠ ids l)
    (hfresh : ∀ k, ∀ i ∈ st.inventory, ids k ≠ i.id) :
    ∀ k u, us[k]? = some u →
      st.inventory.find? (fun i => lowerName i.name == lowerName u.name) = none →
      u.quantity ≠ 0 →
      ({ id := ids k
         name := u.name
         quantity := u.quantity
         unit := if u.quantity > (1 : ℚ) then "units" else "unit"
         restockLevel := u.quantity * 2
         dailyUse := u.quantity / 30
         lastUsed := now
         predictedRunOutDate := none } : InventoryItem) ∈
        (processUpdates st now ids us).inventory := by
  intro k u hk hfind hq
  have hklt : k < us.length := by
    by_contra h
    rw [List.getElem?_eq_none (by omega)] at hk
    exact absurd hk (by simp)
  have hget : us[k] = u := by
    have := List.getElem?_eq_getElem hklt
    rw [hk] at this
    exact (Option.some_inj.mp this).symm
  have hsplit : us = us.take k ++ u :: us.drop (k + 1) := by
    conv_lhs => rw [← List.take_append_drop k us]
    rw [List.drop_eq_getElem_cons hklt, hget]
  have hus : us ≠ [] := by rintro rfl; simp at hklt
  have hinv : (processUpdates st now ids us).inventory =
      applyBatchWrites st.inventory (updateWrites st.inventory now ids 0 us) := by
    simp [processUpdates, hus]
  have hlen : (us.take k).length = k := by
    rw [List.length_take]
    omega
  have hpq : parsedQuantity u = u.quantity := by simp [parsedQuantity, hq]
  rw [hinv, hsplit, updateWrites_append, updateWrite_new _ _ _ _ hfind, hlen,
    Nat.zero_add, hpq]
  apply applyBatchWrites_mem_insert _ rfl
  intro w' hw'
  show w'.1 ≠ ids k
  rcases updateWrites_cases st.inventory now ids (us.drop (k + 1)) (k + 1) w' hw' with
    ⟨u', _, e', he'mem, _, hw1⟩ | ⟨k', hk', hw1⟩
  · rw [hw1]
    intro h
    exact hfresh k e' he'mem h.symm
  · rw [hw1]
    exact hinj k' k (by omega)

/-- Concrete instance of the new-item specification: a first purchase of 4
Eggs creates an item with restock level 8 and daily use 4/30. -/
theorem processUpdates_new_item_spec_witness :
    ({ id := freshIdsW5 0
       name := "Eggs"
       quantity := (4 : ℚ)
       unit := if (4 : ℚ) > 1 then "units" else "unit"
       restockLevel := (4 : ℚ) * 2
       dailyUse := (4 : ℚ) / 30
       lastUsed := "t1"
       predictedRunOutDate := none } : InventoryItem) ∈
      (processUpdates ⟨[], [], cfgW1, []⟩ "t1" freshIdsW5
        [⟨"Eggs", 4, 3, "Walmart", "Manual Input"⟩]).inventory :=
  processUpdates_new_item_spec ⟨[], [], cfgW1, []⟩ "t1" freshIdsW5
    [⟨"Eggs", 4, 3, "Walmart", "Manual Input"⟩]
    (by
      intro k l hkl h
      apply hkl
      unfold freshIdsW5 at h
      injection h with h'
      have := congrArg List.length h'
      simpa using this)
    (by intro k i hi; simp at hi)
    0 ⟨"Eggs", 4, 3, "Walmart", "Manual Input"⟩ rfl (by simp [List.find?]) (by norm_num)

end Akedoshop
